import Mathlib

/-!
Shallow embedding of the audio relay in `backend/ai_agent.js`: the
`AudioConverter` format-conversion helpers, the `OpenAIRealtimeSession`
wire-event layer (`send`, `sendAudio`, the WebSocket event handlers), and the
`playAudioInRoom` playback path with its queue watermark, together with the
wire codec (base64 over little-endian 16-bit PCM) used on the audio path.

Machine integers are modelled as `Nat`/`Int` with explicit bounds; byte
buffers as `List Nat` (each element `< 256`); base64 strings as `List Char`.
-/

set_option autoImplicit false

namespace Relay

/-! ### Base64 wire text codec

Models Node's `Buffer#toString('base64')` / `Buffer.from(s, 'base64')`, the
external stdlib routines the source calls in `convertForOpenAI` (line 84) and
in the `response.audio.delta` handler (line 229): standard RFC 4648 alphabet
with `'='` padding. -/

def b64Alphabet : List Char :=
  ['A', 'B', 'C', 'D', 'E', 'F', 'G', 'H', 'I', 'J', 'K', 'L', 'M',
   'N', 'O', 'P', 'Q', 'R', 'S', 'T', 'U', 'V', 'W', 'X', 'Y', 'Z',
   'a', 'b', 'c', 'd', 'e', 'f', 'g', 'h', 'i', 'j', 'k', 'l', 'm',
   'n', 'o', 'p', 'q', 'r', 's', 't', 'u', 'v', 'w', 'x', 'y', 'z',
   '0', '1', '2', '3', '4', '5', '6', '7', '8', '9', '+', '/']

def b64Char (n : Nat) : Char :=
  b64Alphabet.getD n '='

def b64Index (c : Char) : Option Nat :=
  b64Alphabet.findIdx? (fun d => d = c)

def b64EncTriple (a b c : Nat) : List Char :=
  [b64Char (a / 4), b64Char (a % 4 * 16 + b / 16),
   b64Char (b % 16 * 4 + c / 64), b64Char (c % 64)]

def b64Encode : List Nat → List Char
  | [] => []
  | [a] => [b64Char (a / 4), b64Char (a % 4 * 16), '=', '=']
  | [a, b] => [b64Char (a / 4), b64Char (a % 4 * 16 + b / 16), b64Char (b % 16 * 4), '=']
  | a :: b :: c :: rest => b64EncTriple a b c ++ b64Encode rest

def b64Decode : List Char → Option (List Nat)
  | [] => some []
  | c1 :: c2 :: c3 :: c4 :: rest =>
    match b64Index c1, b64Index c2 with
    | some n1, some n2 =>
      if c3 = '=' then some [n1 * 4 + n2 / 16]
      else
        match b64Index c3 with
        | some n3 =>
          if c4 = '=' then some [n1 * 4 + n2 / 16, n2 % 16 * 16 + n3 / 4]
          else
            match b64Index c4, b64Decode rest with
            | some n4, some tail =>
              some ((n1 * 4 + n2 / 16) :: (n2 % 16 * 16 + n3 / 4) :: (n3 % 4 * 64 + n4) :: tail)
            | _, _ => none
        | none => none
    | _, _ => none
  | _ => none

/-! ### 16-bit PCM byte serialization

Models the reinterpretation between an `Int16Array` and its underlying byte
buffer (`resampled.buffer` in `convertForOpenAI`, and
`new Int16Array(pcm16Buffer.buffer, ...)` in `playAudioInRoom`): two bytes per
sample, little-endian, two's complement. -/

def int16ToBytes (s : Int) : List Nat :=
  let u := (s % 65536).toNat
  [u % 256, u / 256]

def bytesOfSamples : List Int → List Nat
  | [] => []
  | s :: rest => int16ToBytes s ++ bytesOfSamples rest

def int16OfBytes (b0 b1 : Nat) : Int :=
  let u := b0 + 256 * b1
  if u < 32768 then (u : Int) else (u : Int) - 65536

/-- Reinterprets a byte buffer as 16-bit samples. The sample count is
`⌊byteLength / 2⌋` — exactly what `new Int16Array(buffer, byteOffset,
pcm16Buffer.length / 2)` produces in `playAudioInRoom` (the fractional length
is truncated by ToIndex), so a trailing odd byte is silently dropped. -/
def samplesOfBytes : List Nat → List Int
  | b0 :: b1 :: rest => int16OfBytes b0 b1 :: samplesOfBytes rest
  | _ => []

/-! ### Audio frames and the wire codec -/

structure AudioFrame where
  sampleRate : Nat
  channelCount : Nat
  samples : List Int
deriving DecidableEq, Repr

def AudioFrame.sampleCount (f : AudioFrame) : Nat :=
  f.samples.length / f.channelCount

/-- Wire encoding of a frame: base64 of the little-endian 16-bit PCM buffer
(the `Buffer.from(resampled.buffer).toString('base64')` step of
`convertForOpenAI`, applied to the frame's own samples). -/
def encodeForWire (f : AudioFrame) : List Char :=
  b64Encode (bytesOfSamples f.samples)

/-- Decoding a byte payload into a frame: the `playAudioInRoom` path
(`new Int16Array(pcm16Buffer.buffer, byteOffset, length / 2)` then
`new AudioFrame(int16Array, SAMPLE_RATE, NUM_CHANNELS, numSamples)`).
Total: there is no length validation in the source; odd-length payloads are
truncated by `samplesOfBytes`. -/
def frameOfPcmBytes (bytes : List Nat) (rate ch : Nat) : AudioFrame :=
  ⟨rate, ch, samplesOfBytes bytes⟩

/-- Full wire decode: base64 text → bytes (`Buffer.from(delta, 'base64')` in
the `response.audio.delta` handler) → frame (`playAudioInRoom`). -/
def decodeFromWire (payload : List Char) (rate ch : Nat) : Option AudioFrame :=
  (b64Decode payload).map fun bs => frameOfPcmBytes bs rate ch

/-! ### AudioConverter (source lines 52–86) -/

/-- `AudioConverter.resample48to24`: `outputLength = floor(input.length / 2)`;
`output[i] = inputBuffer[i * 2]`. Note the source never inspects any sample
rate: the decimation is unconditional. -/
def resample48to24 (inputBuffer : List Int) : List Int :=
  (List.range (inputBuffer.length / 2)).map fun i => inputBuffer.getD (i * 2) 0

/-- The clamp `Math.max(-1, Math.min(1, float32Array[i]))` from
`AudioConverter.float32ToInt16`. -/
def f32Clamp (x : ℚ) : ℚ := max (-1) (min 1 x)

/-- The scaling `s < 0 ? s * 0x8000 : s * 0x7FFF` from
`AudioConverter.float32ToInt16`. -/
def f32Scale (s : ℚ) : ℚ := if s < 0 then s * 32768 else s * 32767

/-- Storing a number into an `Int16Array` slot applies ToInt16: truncation
toward zero, then wrap-around modulo `2^16`. The wrap step is the identity
whenever the truncated value already lies in `[-32768, 32767]` — which the
range theorem below establishes for every value this program stores — so it
is elided here. -/
def f32Trunc (q : ℚ) : Int := if q < 0 then ⌈q⌉ else ⌊q⌋

def f32SampleToInt16 (x : ℚ) : Int := f32Trunc (f32Scale (f32Clamp x))

/-- `AudioConverter.float32ToInt16`: clamp each value to `[-1, 1]`, scale
negatives by `0x8000` and non-negatives by `0x7FFF`, store into an
`Int16Array`. Float32 values are modelled as rationals; `NaN` (which ToInt16
maps to `0`) is outside the model. -/
def float32ToInt16 (float32Array : List ℚ) : List Int :=
  float32Array.map f32SampleToInt16

/-- `AudioConverter.convertForOpenAI`: decimate the frame's samples by 2, then
base64 the resulting 16-bit buffer. No failure path and no rate check exist in
the source. -/
def convertForOpenAI (audioFrame : AudioFrame) : List Char :=
  b64Encode (bytesOfSamples (resample48to24 audioFrame.samples))

/-! ### OpenAIRealtimeSession (source lines 89–286)

The session is modelled by the observable fields the source mutates: the
WebSocket handle and its ready state, the `connected` flag, the `sessionId`
assignment, the `audioChunksSent` counter, the list of wire events actually
written to the socket (`ws.send`), and a count of the warnings logged by
`sendAudio`'s not-connected guard. -/

inductive WsReady where
  | connecting
  | opened
  | closing
  | closed
deriving DecidableEq, Repr

inductive WireEvent where
  | sessionConfig
  | inputAudioAppend (audio : List Char)
deriving DecidableEq, Repr

structure Session where
  wsReady : Option WsReady
  connected : Bool
  sessionIdSet : Bool
  audioChunksSent : Nat
  sent : List WireEvent
  warnings : Nat
deriving DecidableEq, Repr

/-- Session state right after the constructor plus `connect()` created the
WebSocket: socket exists in CONNECTING state, `connected = false`, nothing
sent. -/
def Session.init : Session :=
  { wsReady := some .connecting, connected := false, sessionIdSet := false,
    audioChunksSent := 0, sent := [], warnings := 0 }

/-- `send(event)` (lines 273–277): writes the event to the socket only when
`this.ws && this.ws.readyState === WebSocket.OPEN`; otherwise silently does
nothing. -/
def Session.send (s : Session) (e : WireEvent) : Session :=
  if s.wsReady = some WsReady.opened then { s with sent := s.sent ++ [e] } else s

/-- `sendAudio(base64Audio)` (lines 252–271): if `!this.connected`, log a
warning and return (no event, no counter change, no throw). Otherwise build
the `input_audio_buffer.append` event, `send` it (which itself checks the
socket ready state), and increment `audioChunksSent` unconditionally. -/
def Session.sendAudio (s : Session) (b64 : List Char) : Session :=
  if s.connected then
    let s1 := s.send (.inputAudioAppend b64)
    { s1 with audioChunksSent := s1.audioChunksSent + 1 }
  else { s with warnings := s.warnings + 1 }

/-- Inbound transport events the session handlers react to: the WebSocket
`open` / `error` / `close` callbacks and the two protocol messages that drive
the configuration handshake. -/
inductive InEv where
  | wsOpen
  | msgSessionCreated
  | msgSessionUpdated
  | wsError
  | wsClose
deriving DecidableEq, Repr

/-- Effect of each inbound event per the source handlers:
`ws.on('open')` sets `connected = true` and calls `initializeSession()`, which
`send`s the session-configuration event (lines 112–117, 143–168);
`handleMessage('session.created')` records the session id (lines 174–179);
`handleMessage('session.updated')` only logs (lines 181–183);
`ws.on('error')` and `ws.on('close')` clear `connected` (lines 123–132). -/
def stepIn (s : Session) (e : InEv) : Session :=
  match e with
  | .wsOpen =>
    let s1 := { s with wsReady := some WsReady.opened, connected := true }
    s1.send .sessionConfig
  | .msgSessionCreated => { s with sessionIdSet := true }
  | .msgSessionUpdated => s
  | .wsError => { s with connected := false }
  | .wsClose => { s with connected := false, wsReady := some WsReady.closed }

def runIn (s : Session) (es : List InEv) : Session :=
  es.foldl stepIn s

inductive ProtoState where
  | connecting
  | awaitingConfig
  | configured
  | closedSt
  | failed
deriving DecidableEq, Repr

/-- Modelled from the spec: the Protocol Session State Machine of spec §4.2,
as an observer of the inbound-event trace, starting from `Connecting` (i.e.
after `connect()`): `session.created` moves `Connecting → AwaitingConfig`,
`session.updated` moves `AwaitingConfig → Configured`, and any transport
error/close moves a non-closed state to `Failed`. (`Idle`, the explicit
`close()` transition and the `Configured → Active` transition on the first
`sendAudio` are not needed by the traces considered here.) -/
def specStateStep (st : ProtoState) (e : InEv) : ProtoState :=
  match st, e with
  | .closedSt, _ => .closedSt
  | .failed, _ => .failed
  | _, .wsError => .failed
  | _, .wsClose => .failed
  | .connecting, .msgSessionCreated => .awaitingConfig
  | .awaitingConfig, .msgSessionUpdated => .configured
  | st, _ => st

def specStateOf (es : List InEv) : ProtoState :=
  es.foldl specStateStep .connecting

/-! ### Playback admission (source lines 554–600)

`playAudioInRoom` checks `this.audioSource.queuedDuration >
MAX_QUEUE_DURATION_MS` (strict `>`, watermark 1000) and awaits
`waitForPlayout()` only when the check passes, before capturing the frame. -/

def MAX_QUEUE_DURATION_MS : Nat := 1000

/-- Whether a `playAudioInRoom` call suspends at `waitForPlayout()`: exactly
when the queued duration at call entry strictly exceeds the watermark. -/
def enqueueWaits (queuedMs : Nat) : Bool :=
  decide (queuedMs > MAX_QUEUE_DURATION_MS)

/-- Wait decisions of successive `playAudioInRoom` calls when no playout
drain happens between the calls: each frame's duration simply accumulates
onto the queue, and each call records whether it suspended. -/
def waitFlagsNoDrain : Nat → List Nat → List Bool
  | _, [] => []
  | q, d :: ds => enqueueWaits q :: waitFlagsNoDrain (q + d) ds

/-! ### Interleaved playback scheduling (claim C4)

`handleMessage` dispatches `this.aiAgent.playAudioInRoom(pcm16Buffer)` without
awaiting it (line 233), so several `playAudioInRoom` invocations can be in
flight at once. Each invocation is a task with a program counter: `start`
(about to run the watermark check), `waiting` (suspended at
`waitForPlayout()`, which resolves once all queued audio has been played out,
i.e. `queuedMs = 0`), `done` (frame captured). The system state tracks the
queued duration, the order in which frames were captured into the source
(`published`), and the pending tasks. Events: a frame arriving (its task is
created in arrival order), a task advancing one step, and the transport
playing out `d` ms. -/

inductive Pc where
  | start
  | waiting
  | done
deriving DecidableEq, Repr

structure PlayTask where
  ident : Nat
  dur : Nat
  pc : Pc
deriving DecidableEq, Repr

structure SchedSys where
  queuedMs : Nat
  published : List Nat
  tasks : List PlayTask
deriving DecidableEq, Repr

inductive SchedEv where
  | arrive (ident dur : Nat)
  | run (ident : Nat)
  | playout (d : Nat)
deriving DecidableEq, Repr

def setPc (tasks : List PlayTask) (ident : Nat) (pc : Pc) : List PlayTask :=
  tasks.map fun u => if u.ident = ident then { u with pc := pc } else u

/-- One scheduling step. `run ident` advances the named task only when its
next action is enabled: at `start` it performs the watermark check (suspending
to `waiting` when `queuedMs > 1000`, otherwise capturing its frame); at
`waiting` it can resume only once the queue has fully played out
(`queuedMs = 0`), matching `waitForPlayout()`'s resolution; a disabled or
`done` task leaves the state unchanged. -/
def schedStep (sys : SchedSys) (e : SchedEv) : SchedSys :=
  match e with
  | .arrive ident dur => { sys with tasks := sys.tasks ++ [⟨ident, dur, .start⟩] }
  | .playout d => { sys with queuedMs := sys.queuedMs - d }
  | .run ident =>
    match sys.tasks.find? (fun t => t.ident = ident) with
    | none => sys
    | some t =>
      match t.pc with
      | .start =>
        if sys.queuedMs > MAX_QUEUE_DURATION_MS then
          { sys with tasks := setPc sys.tasks ident .waiting }
        else
          { queuedMs := sys.queuedMs + t.dur,
            published := sys.published ++ [t.ident],
            tasks := setPc sys.tasks ident .done }
      | .waiting =>
        if sys.queuedMs = 0 then
          { queuedMs := t.dur,
            published := sys.published ++ [t.ident],
            tasks := setPc sys.tasks ident .done }
        else sys
      | .done => sys

def schedRun (sys : SchedSys) (es : List SchedEv) : SchedSys :=
  es.foldl schedStep sys

/-- Sequential (non-overlapping) execution of one whole `playAudioInRoom`
body per frame: if the watermark check passes, the wait drains the queue
fully before the capture; either way the frame is then captured. A frame is
the pair (identifier, duration in ms). -/
structure SeqSched where
  queuedMs : Nat
  published : List Nat
deriving DecidableEq, Repr

def enqueueAtomic (s : SeqSched) (f : Nat × Nat) : SeqSched :=
  let q := if s.queuedMs > MAX_QUEUE_DURATION_MS then 0 else s.queuedMs
  { queuedMs := q + f.2, published := s.published ++ [f.1] }

/-! ### Audio-delta handling before the sink exists (claim C8) -/

structure SinkState where
  queuedMs : Nat
  captured : List (List Nat)
deriving DecidableEq, Repr

/-- The state-relevant effect of one `playAudioInRoom(pcm16Buffer)` call on an
existing sink: possibly wait (draining the queue when above the watermark),
then capture the frame into the source. Frame duration at 24 kHz mono 16-bit:
`bytes/2` samples at 24 samples per ms, i.e. `bytes / 48` ms. -/
def playAudioInRoom (sink : SinkState) (pcm : List Nat) : SinkState :=
  let q := if sink.queuedMs > MAX_QUEUE_DURATION_MS then 0 else sink.queuedMs
  { queuedMs := q + pcm.length / 48, captured := sink.captured ++ [pcm] }

structure AgentState where
  audioSource : Option SinkState
  audioChunksReceived : Nat
deriving DecidableEq, Repr

/-- The `response.audio.delta` branch of `handleMessage` (lines 219–235):
increment `audioChunksReceived`, then forward the decoded payload to
`playAudioInRoom` only `if (this.aiAgent && this.aiAgent.audioSource)` — when
the audio source does not exist yet, the frame goes nowhere (and
`playAudioInRoom` itself would likewise return early on a null
`audioSource`). -/
def handleAudioDelta (ag : AgentState) (pcm : List Nat) : AgentState :=
  let ag1 := { ag with audioChunksReceived := ag.audioChunksReceived + 1 }
  match ag1.audioSource with
  | none => ag1
  | some sink => { ag1 with audioSource := some (playAudioInRoom sink pcm) }

/-! ## Helper lemmas -/

theorem b64Index_b64Char : ∀ k, k < 64 → b64Index (b64Char k) = some k := by decide

theorem b64Char_ne_pad : ∀ k, k < 64 → b64Char k ≠ '=' := by decide

theorem b64_roundtrip (bs : List Nat) (h : ∀ x ∈ bs, x < 256) :
    b64Decode (b64Encode bs) = some bs := by
  induction bs using b64Encode.induct with
  | case1 => rfl
  | case2 a =>
    have ha : a < 256 := h a (by simp)
    have e1 := b64Index_b64Char (a / 4) (by omega)
    have e2 := b64Index_b64Char (a % 4 * 16) (by omega)
    simp only [b64Encode, b64Decode, e1, e2, if_pos rfl, if_true, Option.some.injEq,
      List.cons.injEq, and_true]
    omega
  | case3 a b =>
    have ha : a < 256 := h a (by simp)
    have hb : b < 256 := h b (by simp)
    have e1 := b64Index_b64Char (a / 4) (by omega)
    have e2 := b64Index_b64Char (a % 4 * 16 + b / 16) (by omega)
    have e3 := b64Index_b64Char (b % 16 * 4) (by omega)
    have ne3 := b64Char_ne_pad (b % 16 * 4) (by omega)
    simp only [b64Encode, b64Decode, e1, e2, e3, if_neg ne3, if_pos rfl, if_true,
      Option.some.injEq, List.cons.injEq, and_true]
    omega
  | case4 a b c rest ih =>
    have ha : a < 256 := h a (by simp)
    have hb : b < 256 := h b (by simp)
    have hc : c < 256 := h c (by simp)
    have hrest : ∀ x ∈ rest, x < 256 := fun x hx => h x (by simp [hx])
    have e1 := b64Index_b64Char (a / 4) (by omega)
    have e2 := b64Index_b64Char (a % 4 * 16 + b / 16) (by omega)
    have e3 := b64Index_b64Char (b % 16 * 4 + c / 64) (by omega)
    have e4 := b64Index_b64Char (c % 64) (by omega)
    have ne3 := b64Char_ne_pad (b % 16 * 4 + c / 64) (by omega)
    have ne4 := b64Char_ne_pad (c % 64) (by omega)
    simp only [b64Encode, b64EncTriple, List.cons_append, List.append_eq,
      List.nil_append, b64Decode, e1, e2, e3, e4, if_neg ne3, if_neg ne4,
      ih hrest, Option.some.injEq, List.cons.injEq, and_true]
    omega

theorem int16_roundtrip (s : Int) (h1 : -32768 ≤ s) (h2 : s < 32768) :
    int16OfBytes ((s % 65536).toNat % 256) ((s % 65536).toNat / 256) = s := by
  simp only [int16OfBytes]
  split <;> omega

theorem bytesOfSamples_lt (ss : List Int) : ∀ x ∈ bytesOfSamples ss, x < 256 := by
  induction ss with
  | nil => simp [bytesOfSamples]
  | cons s rest ih =>
    intro x hx
    simp only [bytesOfSamples, int16ToBytes, List.cons_append, List.append_eq,
      List.nil_append, List.mem_cons] at hx
    rcases hx with h | h | h
    · omega
    · omega
    · exact ih x h

theorem samplesOfBytes_bytesOfSamples (ss : List Int)
    (h : ∀ s ∈ ss, -32768 ≤ s ∧ s < 32768) :
    samplesOfBytes (bytesOfSamples ss) = ss := by
  induction ss with
  | nil => rfl
  | cons s rest ih =>
    have hs := h s (by simp)
    simp only [bytesOfSamples, int16ToBytes, List.cons_append, List.append_eq,
      List.nil_append, samplesOfBytes]
    rw [int16_roundtrip s hs.1 hs.2, ih fun x hx => h x (by simp [hx])]

theorem wire_roundtrip (ss : List Int) (hv : ∀ s ∈ ss, -32768 ≤ s ∧ s < 32768)
    (r c : Nat) :
    decodeFromWire (b64Encode (bytesOfSamples ss)) r c = some ⟨r, c, ss⟩ := by
  unfold decodeFromWire
  rw [b64_roundtrip _ (bytesOfSamples_lt ss)]
  simp [frameOfPcmBytes, samplesOfBytes_bytesOfSamples ss hv]

theorem resample48to24_length (inputBuffer : List Int) :
    (resample48to24 inputBuffer).length = inputBuffer.length / 2 := by
  simp [resample48to24]

theorem resample48to24_getD (inputBuffer : List Int) (i : Nat)
    (hi : i < inputBuffer.length / 2) :
    (resample48to24 inputBuffer).getD i 0 = inputBuffer.getD (i * 2) 0 := by
  simp only [resample48to24, List.getD_eq_getElem?_getD, List.getElem?_map,
    List.getElem?_range hi, Option.map_some', Option.getD_some]

theorem resample48to24_mem (inputBuffer : List Int) (s : Int)
    (hs : s ∈ resample48to24 inputBuffer) : s ∈ inputBuffer := by
  simp only [resample48to24, List.mem_map, List.mem_range] at hs
  obtain ⟨i, hi, rfl⟩ := hs
  have hlt : i * 2 < inputBuffer.length := by omega
  rw [List.getD_eq_getElem inputBuffer 0 hlt]
  exact List.getElem_mem hlt

theorem samplesOfBytes_length : ∀ bs : List Nat,
    (samplesOfBytes bs).length = bs.length / 2
  | [] => rfl
  | [_] => by simp [samplesOfBytes]
  | _ :: _ :: rest => by
    simp only [samplesOfBytes, List.length_cons]
    rw [samplesOfBytes_length rest]
    omega

theorem samplesOfBytes_getD : ∀ (bs : List Nat) (i : Nat), i < bs.length / 2 →
    (samplesOfBytes bs).getD i 0 =
      int16OfBytes (bs.getD (2 * i) 0) (bs.getD (2 * i + 1) 0)
  | [], i, h => by simp at h
  | [_], i, h => by simp only [List.length_cons, List.length_nil] at h; omega
  | _ :: _ :: _, 0, _ => rfl
  | b0 :: b1 :: rest, i + 1, h => by
    have hrec := samplesOfBytes_getD rest i (by simp at h ⊢; omega)
    simpa [samplesOfBytes, Nat.mul_succ, Nat.mul_add] using hrec

/-! ## Claim theorems -/

/-- C3: for every valid AudioFrame `f` (16-bit samples) with an even sample
count, decoding the wire encoding of `f` with `f`'s sample rate and channel
count yields a frame equal to `f`:
`decodeFromWire (encodeForWire f) f.sampleRate f.channelCount = some f`
(base64 encode to wire, base64 decode plus 16-bit reinterpretation back). -/
theorem C3_decode_encode_roundtrip (f : AudioFrame)
    (hv : ∀ s ∈ f.samples, -32768 ≤ s ∧ s < 32768)
    (heven : f.samples.length % 2 = 0) :
    decodeFromWire (encodeForWire f) f.sampleRate f.channelCount = some f := by
  cases f with
  | mk r c ss => exact wire_roundtrip ss hv r c

/-- C3 witness: the round-trip at the concrete frame
`⟨24000, 1, [1, -2]⟩` (2 samples, even). -/
theorem C3_decode_encode_roundtrip_witness :
    decodeFromWire (encodeForWire ⟨24000, 1, [1, -2]⟩) 24000 1 =
      some ⟨24000, 1, [1, -2]⟩ :=
  C3_decode_encode_roundtrip ⟨24000, 1, [1, -2]⟩ (by decide) (by decide)

/-- C5: for every input buffer with `n` samples, `resample48to24` produces
`⌊n / 2⌋` samples, and output sample `i` equals input sample `i * 2` — the
even-indexed input samples, naive decimation with no filtering. -/
theorem C5_resample48to24_spec (inputBuffer : List Int) :
    (resample48to24 inputBuffer).length = inputBuffer.length / 2 ∧
    ∀ i, i < inputBuffer.length / 2 →
      (resample48to24 inputBuffer).getD i 0 = inputBuffer.getD (i * 2) 0 :=
  ⟨resample48to24_length inputBuffer, fun i hi => resample48to24_getD inputBuffer i hi⟩

/-- C5 witness: on the concrete buffer `[5, 6, 7, 8, 9]` the output has
`⌊5/2⌋ = 2` samples and output sample 1 is input sample 2, namely `7`. -/
theorem C5_resample48to24_spec_witness :
    (resample48to24 [5, 6, 7, 8, 9]).length = 2 ∧
    (resample48to24 [5, 6, 7, 8, 9]).getD 1 0 = (7 : Int) := by
  obtain ⟨h1, h2⟩ := C5_resample48to24_spec [5, 6, 7, 8, 9]
  exact ⟨h1, by rw [h2 1 (by decide)]; rfl⟩

/-- C6 counterexample: the claim says the downsample operation fails with
`UnsupportedRateRatio` whenever the input rate over the target rate (24000)
is not exactly 2, but `resample48to24` / `convertForOpenAI` contain no rate
check whatever: on a frame whose rate is 16000 (ratio 16000/24000 ≠ 2) the
conversion succeeds, returning the base64 of the naively decimated samples
`[100, 300]` instead of any error. -/
theorem C6_no_ratio_check_counterexample :
    (16000 : Nat) ≠ 2 * 24000 ∧
    convertForOpenAI ⟨16000, 1, [100, 200, 300, 400]⟩ =
      ['Z', 'A', 'A', 's', 'A', 'Q', '=', '='] := by decide

/-- C6 (amended): the downsample operation performs no rate validation and
never fails: for every frame, whatever its sample rate, `convertForOpenAI`
succeeds and produces the wire encoding of the 2:1-decimated samples —
decoding its output at 24 kHz mono returns exactly the decimated frame. (For
a genuine 48 kHz input the ratio is exactly 2 and the claim's success half
holds; for any other rate the operation still succeeds rather than failing
with `UnsupportedRateRatio`.) -/
theorem C6_convertForOpenAI_any_rate (f : AudioFrame)
    (hv : ∀ s ∈ f.samples, -32768 ≤ s ∧ s < 32768) :
    decodeFromWire (convertForOpenAI f) 24000 1 =
      some ⟨24000, 1, resample48to24 f.samples⟩ := by
  have hmem : ∀ s ∈ resample48to24 f.samples, -32768 ≤ s ∧ s < 32768 :=
    fun s hs => hv s (resample48to24_mem f.samples s hs)
  exact wire_roundtrip (resample48to24 f.samples) hmem 24000 1

/-- C6 witness: the amended theorem at the ratio-violating frame of the
counterexample: conversion of the 16000 Hz frame succeeds and round-trips to
the decimated frame `[100, 300]`. -/
theorem C6_convertForOpenAI_any_rate_witness :
    decodeFromWire (convertForOpenAI ⟨16000, 1, [100, 200, 300, 400]⟩) 24000 1 =
      some ⟨24000, 1, [100, 300]⟩ :=
  C6_convertForOpenAI_any_rate ⟨16000, 1, [100, 200, 300, 400]⟩ (by decide)

/-- C7 counterexample: the claim says `decodeFromWire` fails with
`MalformedPayload` on every payload of odd decoded byte length, in particular
a 5-byte payload. The source has no such failure path: `pcm16Buffer.length /
2` is truncated by the `Int16Array` constructor, so the 5-byte payload
`[1, 2, 3, 4, 5]` decodes successfully to the 2-sample frame built from its
first 4 bytes (samples `513 = 1 + 256·2` and `1027 = 3 + 256·4`), and the
event loop continues. -/
theorem C7_odd_payload_succeeds_counterexample :
    decodeFromWire (b64Encode [1, 2, 3, 4, 5]) 24000 1 =
      some ⟨24000, 1, [513, 1027]⟩ ∧ (5 : Nat) % 2 = 1 := by decide

/-- C7 (amended): `decodeFromWire` never fails on byte payloads: a payload of
byte length `n` yields a frame of `⌊n / 2⌋` samples, sample `i` being the
little-endian 16-bit value of bytes `2i, 2i+1`; an odd trailing byte is
silently dropped rather than raising `MalformedPayload` (so even-length
payloads decode fully, and the surrounding event loop continues in every
case). -/
theorem C7_frameOfPcmBytes_total (bytes : List Nat) (rate ch : Nat) :
    (frameOfPcmBytes bytes rate ch).samples.length = bytes.length / 2 ∧
    ∀ i, i < bytes.length / 2 →
      (frameOfPcmBytes bytes rate ch).samples.getD i 0 =
        int16OfBytes (bytes.getD (2 * i) 0) (bytes.getD (2 * i + 1) 0) :=
  ⟨samplesOfBytes_length bytes, fun i hi => samplesOfBytes_getD bytes i hi⟩

/-- C7 witness: the amended theorem at the 5-byte payload: 2 samples, and
sample 1 is the 16-bit value of bytes 2 and 3. -/
theorem C7_frameOfPcmBytes_total_witness :
    (frameOfPcmBytes [1, 2, 3, 4, 5] 24000 1).samples.length = 2 ∧
    (frameOfPcmBytes [1, 2, 3, 4, 5] 24000 1).samples.getD 1 0 =
      int16OfBytes 3 4 := by
  obtain ⟨h1, h2⟩ := C7_frameOfPcmBytes_total [1, 2, 3, 4, 5] 24000 1
  exact ⟨h1, h2 1 (by decide)⟩

theorem f32SampleToInt16_range (x : ℚ) :
    -32768 ≤ f32SampleToInt16 x ∧ f32SampleToInt16 x ≤ 32767 := by
  unfold f32SampleToInt16 f32Trunc f32Scale f32Clamp
  set s : ℚ := max (-1) (min 1 x) with hsdef
  have hs1 : (-1 : ℚ) ≤ s := le_max_left _ _
  have hs2 : s ≤ 1 := max_le (by norm_num) (min_le_left _ _)
  split_ifs with h1 h2 h2
  · constructor
    · have hlo : ((-32768 : ℤ) : ℚ) ≤ s * 32768 := by push_cast; nlinarith
      have := Int.ceil_mono hlo
      rwa [Int.ceil_intCast] at this
    · have : ⌈s * 32768⌉ ≤ (0 : ℤ) := Int.ceil_le.mpr (by push_cast; exact h2.le)
      omega
  · exact absurd (by nlinarith : s * 32768 < 0) h2
  · exact absurd (by nlinarith : (0 : ℚ) ≤ s * 32767) (not_le.mpr h2)
  · constructor
    · have : (0 : Int) ≤ ⌊s * 32767⌋ := Int.floor_nonneg.mpr (by nlinarith)
      omega
    · have hhi : s * 32767 ≤ ((32767 : ℤ) : ℚ) := by push_cast; nlinarith
      have := Int.floor_mono hhi
      rwa [Int.floor_intCast] at this

/-- C9: every element of `float32ToInt16`'s output lies in the signed 16-bit
range `[-32768, 32767]`: the input is clamped to `[-1, 1]`, negatives scale
by `0x8000` and non-negatives by `0x7FFF`, so no stored value overflows
Int16. -/
theorem C9_float32ToInt16_range (float32Array : List ℚ) (y : Int)
    (hy : y ∈ float32ToInt16 float32Array) :
    -32768 ≤ y ∧ y ≤ 32767 := by
  simp only [float32ToInt16, List.mem_map] at hy
  obtain ⟨x, -, rfl⟩ := hy
  exact f32SampleToInt16_range x

/-- C9 witness: the input `-2` clamps to `-1` and scales to exactly `-32768`,
which is in range. -/
theorem C9_float32ToInt16_range_witness :
    (-32768 : Int) ∈ float32ToInt16 [-2] ∧
    -32768 ≤ (-32768 : Int) ∧ (-32768 : Int) ≤ 32767 := by
  have hmem : (-32768 : Int) ∈ float32ToInt16 [-2] := by
    have hcl : f32Clamp (-2) = -1 := by
      unfold f32Clamp
      rw [min_eq_right (by norm_num : (-2 : ℚ) ≤ 1), max_eq_left (by norm_num : (-2 : ℚ) ≤ -1)]
    have hsc : f32Scale (-1) = -32768 := by
      unfold f32Scale
      rw [if_pos (by norm_num : (-1 : ℚ) < 0)]
      norm_num
    have htr : f32Trunc (-32768) = -32768 := by
      unfold f32Trunc
      rw [if_pos (by norm_num : (-32768 : ℚ) < 0),
        show ((-32768 : ℚ)) = ((-32768 : ℤ) : ℚ) by norm_num, Int.ceil_intCast]
    simp [float32ToInt16, f32SampleToInt16, hcl, hsc, htr]
  exact ⟨hmem, C9_float32ToInt16_range [-2] (-32768) hmem⟩

/-- C1 counterexample: the claim says `sendAudio` in every state outside
{Configured, Active} is a no-op that transmits zero wire events and warns.
But the code's only guard is the `connected` flag, which the `open` handler
sets before `session.created`/`session.updated` arrive. After the trace
`[wsOpen, session.created]` the spec state machine is in `AwaitingConfig`
(configuration not yet acknowledged), yet `sendAudio` transmits one
`input_audio_buffer.append` wire event (after the config event sent at open)
and logs no warning. -/
theorem C1_awaitingConfig_transmits_counterexample :
    specStateOf [.wsOpen, .msgSessionCreated] = ProtoState.awaitingConfig ∧
    ((runIn Session.init [.wsOpen, .msgSessionCreated]).sendAudio
        ['A', 'A', 'A', 'A']).sent =
      [WireEvent.sessionConfig, WireEvent.inputAudioAppend ['A', 'A', 'A', 'A']] ∧
    ((runIn Session.init [.wsOpen, .msgSessionCreated]).sendAudio
        ['A', 'A', 'A', 'A']).warnings = 0 :=
  ⟨rfl, rfl, rfl⟩

/-- C1 (amended): `sendAudio` is a no-op that warns (never throws, transmits
nothing, changes nothing else) exactly when the `connected` flag is false —
i.e. before the socket opens and after error/close; once `connected` is true
and the socket is OPEN — which holds from the moment the socket opens, so in
`AwaitingConfig` and `Configured` just as in `Active` — every call transmits
exactly one `input_audio_buffer.append` wire event, with no warning. -/
theorem C1_sendAudio_state_behavior (s : Session) (b64 : List Char) :
    (s.connected = false → s.sendAudio b64 = { s with warnings := s.warnings + 1 }) ∧
    (s.connected = true → s.wsReady = some WsReady.opened →
      (s.sendAudio b64).sent = s.sent ++ [WireEvent.inputAudioAppend b64] ∧
      (s.sendAudio b64).warnings = s.warnings) := by
  constructor
  · intro h
    simp [Session.sendAudio, h]
  · intro hc hw
    simp [Session.sendAudio, Session.send, hc, hw]

/-- C1 witness: in the initial (Connecting, socket not yet open) session a
call only warns; after the socket has opened, a call appends exactly one
`input_audio_buffer.append` to the transmitted events. -/
theorem C1_sendAudio_state_behavior_witness :
    Session.init.sendAudio ['x'] = { Session.init with warnings := 1 } ∧
    ((runIn Session.init [.wsOpen]).sendAudio ['x']).sent =
      (runIn Session.init [.wsOpen]).sent ++ [WireEvent.inputAudioAppend ['x']] :=
  ⟨(C1_sendAudio_state_behavior Session.init ['x']).1 rfl,
   ((C1_sendAudio_state_behavior (runIn Session.init [.wsOpen]) ['x']).2 rfl rfl).1⟩

/-- C2 counterexample: the claim says that with a 1000 ms watermark and no
drain, the third enqueue of three 500 ms frames suspends. The code's check is
strict (`queuedDuration > MAX_QUEUE_DURATION_MS`): at the third call the
queue holds exactly 1000 ms, which does not exceed 1000, so none of the three
calls suspends. -/
theorem C2_third_enqueue_no_wait_counterexample :
    waitFlagsNoDrain 0 [500, 500, 500] = [false, false, false] := rfl

/-- C2 (amended): an enqueue call suspends at `waitForPlayout()` precisely
when the queued duration at call time strictly exceeds the 1000 ms watermark.
With 500 ms frames and no drain the third call sees exactly 1000 ms and does
not suspend; the fourth call (queue 1500 ms) is the first that suspends. -/
theorem C2_enqueue_wait_iff_exceeds (q : Nat) (ds : List Nat) (i : Nat)
    (h : i < ds.length) :
    (waitFlagsNoDrain q ds).getD i false =
      decide (q + (ds.take i).sum > MAX_QUEUE_DURATION_MS) := by
  induction ds generalizing q i with
  | nil => simp at h
  | cons d ds ih =>
    cases i with
    | zero => simp [waitFlagsNoDrain, enqueueWaits]
    | succ i =>
      simp only [waitFlagsNoDrain, List.getD_cons_succ, List.take_succ_cons,
        List.sum_cons]
      rw [ih (q + d) i (by simpa using h), Nat.add_assoc]

/-- C2 witness: with no drain and 500 ms frames, the fourth enqueue call
(index 3) suspends. -/
theorem C2_enqueue_wait_witness :
    (waitFlagsNoDrain 0 [500, 500, 500, 500]).getD 3 false = true := by
  rw [C2_enqueue_wait_iff_exceeds 0 [500, 500, 500, 500] 3 (by decide)]
  rfl

/-- C4 counterexample: the claim says frames enqueued in order [A, B, C] are
always published in that order regardless of admission waits. Because
`handleMessage` dispatches `playAudioInRoom` without awaiting it, invocations
overlap, and this execution — every step enabled under the source's
semantics — publishes out of order. Frames 1, 2, 3 (500 ms each) arrive in
order while 1200 ms is queued: frame 1's invocation suspends at the
watermark; 300 ms plays out; frame 2 then sees 900 ms ≤ 1000 and captures at
once; only after full playout does frame 1 resume; frame 3 captures last.
The transport observes [2, 1, 3], not [1, 2, 3]. -/
theorem C4_interleaving_reorders_counterexample :
    (schedRun ⟨1200, [], []⟩
      [.arrive 1 500, .run 1, .playout 300, .arrive 2 500, .run 2,
       .playout 1400, .run 1, .arrive 3 500, .run 3]).published = [2, 1, 3] := by
  decide

/-- C4 (amended): frames are delivered to the transport in enqueue order
provided each `playAudioInRoom` invocation runs to completion before the next
begins (no overlap): a sequential execution over any frame list publishes
exactly the frames in arrival order, the only delay being the admission wait.
With the source's fire-and-forget dispatch, overlapping invocations around an
admission wait can reorder publication (see the counterexample). -/
theorem C4_sequential_enqueue_order (s : SeqSched) (fs : List (Nat × Nat)) :
    (fs.foldl enqueueAtomic s).published = s.published ++ fs.map Prod.fst := by
  induction fs generalizing s with
  | nil => simp
  | cons f fs ih =>
    simp only [List.foldl_cons, List.map_cons]
    rw [ih]
    simp [enqueueAtomic, List.append_assoc]

/-- C8 counterexample: the claim says every response-audio frame arriving
before the playback sink exists is buffered rather than discarded. In the
code, when `audioSource` is null the `response.audio.delta` handler only
increments the received counter and drops the payload: the resulting state
holds the frame nowhere, so it can never be played later. -/
theorem C8_delta_before_sink_dropped_counterexample :
    handleAudioDelta ⟨none, 0⟩ [1, 2, 3, 4] = ⟨none, 1⟩ := rfl

/-- C8 (amended): a response-audio frame arriving while the sink does not yet
exist is dropped (only the received counter changes — nothing buffers it); a
frame arriving once the sink exists is captured into the sink's queue in
order. -/
theorem C8_handleAudioDelta_behavior (ag : AgentState) (pcm : List Nat) :
    (ag.audioSource = none →
      handleAudioDelta ag pcm =
        { ag with audioChunksReceived := ag.audioChunksReceived + 1 }) ∧
    (∀ sink, ag.audioSource = some sink →
      (handleAudioDelta ag pcm).audioSource = some (playAudioInRoom sink pcm) ∧
      (playAudioInRoom sink pcm).captured = sink.captured ++ [pcm]) := by
  constructor
  · intro h
    simp [handleAudioDelta, h]
  · intro sink h
    simp [handleAudioDelta, playAudioInRoom, h]

/-- C8 witness: with no sink only the counter changes; with a sink the frame
is captured. -/
theorem C8_handleAudioDelta_behavior_witness :
    handleAudioDelta ⟨none, 3⟩ [9, 9] = ⟨none, 4⟩ ∧
    (handleAudioDelta ⟨some ⟨0, []⟩, 0⟩ [9, 9]).audioSource =
      some (playAudioInRoom ⟨0, []⟩ [9, 9]) :=
  ⟨(C8_handleAudioDelta_behavior ⟨none, 3⟩ [9, 9]).1 rfl,
   ((C8_handleAudioDelta_behavior ⟨some ⟨0, []⟩, 0⟩ [9, 9]).2 ⟨0, []⟩ rfl).1⟩

/-- C10: whenever the session's `connected` flag is true, `sendAudio`
increments `audioChunksSent` by exactly one — even when the socket is not in
the OPEN state, in which case no wire event is transmitted — so the sent
counter can exceed the number of wire events actually sent. -/
theorem C10_sendAudio_counter (s : Session) (b64 : List Char)
    (h : s.connected = true) :
    (s.sendAudio b64).audioChunksSent = s.audioChunksSent + 1 ∧
    (s.wsReady ≠ some WsReady.opened → (s.sendAudio b64).sent = s.sent) := by
  constructor
  · simp only [Session.sendAudio, Session.send, h, if_true]
    split <;> rfl
  · intro hw
    simp [Session.sendAudio, Session.send, h, hw]

/-- C10 witness: a connected session whose socket is CLOSING: the call bumps
the counter from 0 to 1 while transmitting nothing, so the counter (1)
exceeds the wire events sent (0). -/
theorem C10_sendAudio_counter_witness :
    ((⟨some WsReady.closing, true, true, 0, [], 0⟩ : Session).sendAudio
        ['x']).audioChunksSent = 1 ∧
    ((⟨some WsReady.closing, true, true, 0, [], 0⟩ : Session).sendAudio
        ['x']).sent = [] :=
  ⟨(C10_sendAudio_counter ⟨some WsReady.closing, true, true, 0, [], 0⟩ ['x'] rfl).1,
   (C10_sendAudio_counter ⟨some WsReady.closing, true, true, 0, [], 0⟩ ['x'] rfl).2
     (by decide)⟩

end Relay
